import Mathlib

/-!
Verification of the streaming ingest-transform-checkpoint pipeline of
`wiki_api.py` (Wikipedia-Extractor).

The Python source is shallowly embedded below.  Pure helpers
(`format_title`, `clean_text`, `validate_output_file`, the base64 tag
computation) become Lean functions; the body of `main`'s streaming loop
(lines 159-216) becomes a step function `processEntry` on an explicit
`PipelineState`; the end-of-stream residual flush and final table writes
(lines 218-251) become `finalizeRun`.  Checkpoint and final-table writes
are recorded in the state as an event log instead of touching a file
system; everything else follows the source line by line.
-/

namespace WikiExtractor

/-- Python truthiness of an optional string value: `None` and the empty
string are falsy, any non-empty string is truthy. -/
def truthy : Option String → Bool
  | none => false
  | some s => !(s == "")

/-- Embedding of `format_title` (wiki_api.py lines 57-60): replace spaces with
underscores; `None` for a falsy input. -/
def format_title (title : Option String) : Option String :=
  match title with
  | some t => if t == "" then none else some (String.mk (t.data.map (fun c => if c == ' ' then '_' else c)))
  | none => none

/-- Model of the `\p{L}` character class of `regex.sub` (wiki_api.py line
64): the Unicode general category Letter.  The full Unicode table lives in
the `regex` library; this model lists the principal letter ranges (ASCII,
Latin-1 and Latin Extended, Greek, Cyrillic, Hebrew, Arabic, Devanagari,
Hiragana, Katakana, unified CJK, Hangul), which covers every character
exercised in this development. -/
def isLetterClass (c : Char) : Bool :=
  let n := c.toNat
  (0x41 ≤ n && n ≤ 0x5A) || (0x61 ≤ n && n ≤ 0x7A) ||
  (n == 0xAA) || (n == 0xB5) || (n == 0xBA) ||
  (0xC0 ≤ n && n ≤ 0xD6) || (0xD8 ≤ n && n ≤ 0xF6) || (0xF8 ≤ n && n ≤ 0x24F) ||
  (0x370 ≤ n && n ≤ 0x373) || (0x376 ≤ n && n ≤ 0x377) ||
  (0x386 == n) || (0x388 ≤ n && n ≤ 0x3A1) || (0x3A3 ≤ n && n ≤ 0x3F5) ||
  (0x400 ≤ n && n ≤ 0x481) || (0x48A ≤ n && n ≤ 0x52F) ||
  (0x5D0 ≤ n && n ≤ 0x5EA) || (0x621 ≤ n && n ≤ 0x64A) ||
  (0x905 ≤ n && n ≤ 0x939) ||
  (0x3041 ≤ n && n ≤ 0x3096) || (0x30A1 ≤ n && n ≤ 0x30FA) ||
  (0x4E00 ≤ n && n ≤ 0x9FFF) || (0xAC00 ≤ n && n ≤ 0xD7A3)

/-- Model of the `\s` character class of `regex.sub` (wiki_api.py line
64): Unicode whitespace. -/
def isSpaceClass (c : Char) : Bool :=
  let n := c.toNat
  (0x09 ≤ n && n ≤ 0x0D) || (0x1C ≤ n && n ≤ 0x1F) || (n == 0x20) ||
  (n == 0x85) || (n == 0xA0) || (n == 0x1680) ||
  (0x2000 ≤ n && n ≤ 0x200A) || (n == 0x2028) || (n == 0x2029) ||
  (n == 0x202F) || (n == 0x205F) || (n == 0x3000)

/-- A character survives `re.sub(r'[^\p{L}\s]', '', text)` iff it is a
letter or whitespace. -/
def keepChar (c : Char) : Bool :=
  isLetterClass c || isSpaceClass c

/-- Embedding of `clean_text` (wiki_api.py lines 62-65): for a truthy input, remove
every character that is neither a Unicode letter nor whitespace; for a
falsy input (`None` or the empty string) return `None`. -/
def clean_text (text : Option String) : Option String :=
  match text with
  | some s => if s == "" then none else some (String.mk (s.data.filter keepChar))
  | none => none

/-- Model of Python `str.endswith`: a suffix test on the character
sequence. -/
def strEndsWith (p tail : String) : Bool :=
  tail.data.isSuffixOf p.data

/-- Embedding of `validate_output_file` (wiki_api.py lines 67-69): raise `ValueError`
unless the path ends in `.parquet`.  `Except.error` models the raise. -/
def validate_output_file (output_file_path : String) : Except String Unit :=
  if strEndsWith output_file_path ".parquet" then Except.ok ()
  else Except.error "Output file must have a .parquet extension."

/-- Embedding of `extract_language_code` (wiki_api.py lines 114-115): the first two
characters of the user prefix. -/
def extract_language_code (p : String) : String :=
  String.mk (p.data.take 2)

/-- The base64 alphabet, as used by `base64.b64encode`. -/
def b64Alphabet : List Char :=
  "ABCDEFGHIJKLMNOPQRSTUVWXYZabcdefghijklmnopqrstuvwxyz0123456789+/".data

/-- The base64 digit for a 6-bit value. -/
def b64Char (n : Nat) : Char :=
  b64Alphabet.getD n 'A'

/-- RFC 4648 base64 of a byte sequence, as computed by
`base64.b64encode` (wiki_api.py line 184): groups of three bytes become
four alphabet characters, with `=` padding for a short final group. -/
def base64Encode : List Nat → List Char
  | [] => []
  | [a] => [b64Char (a / 4), b64Char (a % 4 * 16), '=', '=']
  | [a, b] => [b64Char (a / 4), b64Char (a % 4 * 16 + b / 16), b64Char (b % 16 * 4), '=']
  | a :: b :: c :: rest =>
      b64Char (a / 4) :: b64Char (a % 4 * 16 + b / 16) ::
      b64Char (b % 16 * 4 + c / 64) :: b64Char (c % 64) :: base64Encode rest

/-- UTF-8 encoding of one code point, as performed by `str.encode('utf-8')`
(wiki_api.py line 183). -/
def utf8Bytes (c : Char) : List Nat :=
  if c.toNat < 0x80 then [c.toNat]
  else if c.toNat < 0x800 then [0xC0 + c.toNat / 64, 0x80 + c.toNat % 64]
  else if c.toNat < 0x10000 then
    [0xE0 + c.toNat / 4096, 0x80 + c.toNat / 64 % 64, 0x80 + c.toNat % 64]
  else
    [0xF0 + c.toNat / 262144, 0x80 + c.toNat / 4096 % 64, 0x80 + c.toNat / 64 % 64,
     0x80 + c.toNat % 64]

/-- UTF-8 encoding of a whole string. -/
def strUtf8 (s : String) : List Nat :=
  s.data.flatMap utf8Bytes

/-- Decimal digits by repeated division by ten, most significant first,
with a structural fuel argument (the value itself bounds the digit count,
since `n / 10 < n` for positive `n`). -/
def natDigitsAux : Nat → Nat → List Char
  | 0, n => [Char.ofNat (48 + n % 10)]
  | fuel + 1, n =>
    if n < 10 then [Char.ofNat (48 + n)]
    else natDigitsAux fuel (n / 10) ++ [Char.ofNat (48 + n % 10)]

/-- Decimal digits of a non-negative integer, most significant first. -/
def natDigits (n : Nat) : List Char :=
  natDigitsAux n n

/-- Decimal representation, as produced by Python `str()` on a
non-negative integer (wiki_api.py line 182). -/
def natToDecimal (n : Nat) : String :=
  String.mk (natDigits n)

/-- The Version Control tag (wiki_api.py lines 182-184):
`base64.b64encode((base_value + str(seq)).encode('utf-8')).decode('utf-8')`. -/
def versionTag (base_value : String) (seq : Nat) : String :=
  String.mk (base64Encode (strUtf8 (base_value ++ natToDecimal seq)))

/-- The extraction mode read at wiki_api.py line 140. -/
inductive ExtractOption where
  | abstract
  | full_text
  | both
deriving DecidableEq, Repr

/-- One of the two output column-groups. -/
inductive ColumnGroup where
  | abstractCol
  | fullTextCol
deriving DecidableEq, Repr

/-- A decoded raw JSON record (wiki_api.py lines 165-170).  All fields are
optional; a missing key decodes to `none`, and the empty string is kept
distinct from a missing key because Python treats both as falsy but they
are different values. -/
structure RawRecord where
  wiki : Option String
  language : Option String
  title : Option String
  full_text : Option String
  opening_text : Option String
  popularity_score : Option Int
deriving DecidableEq, Repr

/-- The `entry_data` dict (wiki_api.py lines 186-203).  The Python dict
holds the `Abstract` key only when the abstract group is requested (and
likewise `Full Text`); here both fields are always present, and an
unrequested text field is `none` because lines 168-169 force the
unrequested raw value to `None` before the dict is built. -/
structure OutputRecord where
  url : Option String
  wiki : Option String
  language : Option String
  title : Option String
  abstract : Option String
  full_text : Option String
  version_control : String
  popularity_score : Option Int
deriving DecidableEq, Repr

/-- One call to `save_checkpoint` (wiki_api.py lines 79-94), recorded as
an event: the checkpoint index, the column-group whose buffer was written,
and the records it contained.  The artifact on disk is the per-group
column projection of `data`, at path `checkpoint_<num>.parquet` inside the
scratch folder. -/
structure Checkpoint where
  num : Nat
  column : ColumnGroup
  data : List OutputRecord
deriving DecidableEq, Repr

/-- The run options fixed before the streaming loop (wiki_api.py lines
117-156). -/
structure Config where
  language_code : String
  extract_option : ExtractOption
  clean_text_flag : Bool
  checkpoint_interval : Nat
  base_value : String
deriving Repr

/-- Whether the `full_text` raw field is extracted (wiki_api.py line 168:
`extract_option in ['full_text', 'both']`). -/
def requestsFullText : ExtractOption → Bool
  | ExtractOption.full_text => true
  | ExtractOption.both => true
  | ExtractOption.abstract => false

/-- Whether the `opening_text` raw field is extracted (wiki_api.py line
169: `extract_option in ['abstract', 'both']`). -/
def requestsAbstract : ExtractOption → Bool
  | ExtractOption.abstract => true
  | ExtractOption.both => true
  | ExtractOption.full_text => false

/-- The acceptance gate (wiki_api.py line 172):
`all([wiki, language, title, (full_text if full_text else abstract)])`,
where `full_text`/`abstract` are the request-filtered values of lines
168-169. -/
def accepts (cfg : Config) (entry : RawRecord) : Bool :=
  let full_text := if requestsFullText cfg.extract_option then entry.full_text else none
  let abstract := if requestsAbstract cfg.extract_option then entry.opening_text else none
  truthy entry.wiki && truthy entry.language && truthy entry.title &&
    truthy (if truthy full_text then full_text else abstract)

/-- Construction of `entry_data` for an accepted record (wiki_api.py lines
173-193): URL from the formatted title, optional cleaning of whichever
truthy texts were extracted, and the Version Control tag for sequence
number `seq` (the code passes `processed_count + 1`). -/
def makeEntryData (cfg : Config) (seq : Nat) (entry : RawRecord) : OutputRecord :=
  let full_text := if requestsFullText cfg.extract_option then entry.full_text else none
  let abstract := if requestsAbstract cfg.extract_option then entry.opening_text else none
  let url := match format_title entry.title with
    | some ft => some ("https://" ++ cfg.language_code ++ ".wikipedia.org/wiki/" ++ ft)
    | none => none
  let full_text := if cfg.clean_text_flag && truthy full_text then clean_text full_text else full_text
  let abstract := if cfg.clean_text_flag && truthy abstract then clean_text abstract else abstract
  { url := url, wiki := entry.wiki, language := entry.language, title := entry.title,
    abstract := abstract, full_text := full_text,
    version_control := versionTag cfg.base_value seq,
    popularity_score := entry.popularity_score }

/-- The mutable state of `main`'s streaming loop (wiki_api.py lines
149-156), plus `saved`, the ordered log of `save_checkpoint` calls made so
far. -/
structure PipelineState where
  data_abstract : List OutputRecord
  data_full_text : List OutputRecord
  checkpoint_data_abstract : List OutputRecord
  checkpoint_data_full_text : List OutputRecord
  processed_count : Nat
  checkpoint_num : Nat
  saved : List Checkpoint
deriving DecidableEq, Repr

/-- The initial state (wiki_api.py lines 149-156). -/
def initState : PipelineState :=
  { data_abstract := [], data_full_text := [],
    checkpoint_data_abstract := [], checkpoint_data_full_text := [],
    processed_count := 0, checkpoint_num := 0, saved := [] }

/-- Routing of an accepted record (wiki_api.py lines 195-203): the record
is appended to the full-run and current-checkpoint lists of every
*requested* group — membership is decided by `extract_option` alone, not
by which text fields are present. -/
def appendToGroups (cfg : Config) (st : PipelineState) (d : OutputRecord) : PipelineState :=
  let st1 := if requestsAbstract cfg.extract_option then
      { st with data_abstract := st.data_abstract ++ [d],
                checkpoint_data_abstract := st.checkpoint_data_abstract ++ [d] }
    else st
  if requestsFullText cfg.extract_option then
      { st1 with data_full_text := st1.data_full_text ++ [d],
                 checkpoint_data_full_text := st1.checkpoint_data_full_text ++ [d] }
  else st1

/-- Saving of the Abstract buffer during a mid-stream flush (wiki_api.py
lines 209-211): a non-empty buffer is saved under the current (already
incremented) index and cleared; an empty buffer is skipped. -/
def flushAbstractBuf (st : PipelineState) : PipelineState :=
  if st.checkpoint_data_abstract.isEmpty then st else
    { st with
        saved := st.saved ++
          [{ num := st.checkpoint_num, column := ColumnGroup.abstractCol,
             data := st.checkpoint_data_abstract }],
        checkpoint_data_abstract := [] }

/-- Saving of the Full Text buffer during a mid-stream flush (wiki_api.py
lines 212-214). -/
def flushFullTextBuf (st : PipelineState) : PipelineState :=
  if st.checkpoint_data_full_text.isEmpty then st else
    { st with
        saved := st.saved ++
          [{ num := st.checkpoint_num, column := ColumnGroup.fullTextCol,
             data := st.checkpoint_data_full_text }],
        checkpoint_data_full_text := [] }

/-- A mid-stream flush event (wiki_api.py lines 207-214): the shared
checkpoint index is incremented once, then each group's non-empty
current-checkpoint buffer is saved under that index and cleared. -/
def midStreamFlush (st : PipelineState) : PipelineState :=
  flushFullTextBuf (flushAbstractBuf { st with checkpoint_num := st.checkpoint_num + 1 })

/-- Increment of the processed counter (wiki_api.py line 205). -/
def incrementProcessed (st : PipelineState) : PipelineState :=
  { st with processed_count := st.processed_count + 1 }

/-- The threshold check (wiki_api.py line 207): flush when the global
processed count is a multiple of the checkpoint interval. -/
def checkpointIfDue (cfg : Config) (st : PipelineState) : PipelineState :=
  if st.processed_count % cfg.checkpoint_interval == 0 then midStreamFlush st else st

/-- The accepted branch of the streaming loop (wiki_api.py lines
173-216): build `entry_data` with sequence number `processed_count + 1`,
route it to the requested groups, increment the processed counter, and
flush when the counter is a multiple of the checkpoint interval. -/
def processAccepted (cfg : Config) (st : PipelineState) (entry : RawRecord) : PipelineState :=
  checkpointIfDue cfg
    (incrementProcessed (appendToGroups cfg st (makeEntryData cfg (st.processed_count + 1) entry)))

/-- The body of the streaming loop for one parsed line (wiki_api.py lines
165-216): the acceptance gate followed, on acceptance, by the accepted
branch; a rejected record leaves the state untouched. -/
def processEntry (cfg : Config) (st : PipelineState) (entry : RawRecord) : PipelineState :=
  if accepts cfg entry then processAccepted cfg st entry else st

/-- The result of the streaming loop: either the loop ran to the end of
the input, or `json.loads` raised on a malformed line (wiki_api.py line
163), aborting the run with the state reached so far (checkpoints already
saved persist; nothing further is written). -/
inductive StreamResult where
  | ok (st : PipelineState)
  | jsonError (st : PipelineState)
deriving DecidableEq, Repr

/-- The streaming loop (wiki_api.py lines 158-216) over a list of input
lines, where `some entry` is a line that parses to `entry` and `none` is a
malformed line.  The `extract_all` limit branch (lines 153-154, 160-161)
is dead code because `extract_all` is hardcoded `True`, so it is omitted. -/
def streamLines (cfg : Config) (st : PipelineState) : List (Option RawRecord) → StreamResult
  | [] => StreamResult.ok st
  | line :: rest =>
    match line with
    | none => StreamResult.jsonError st
    | some entry => streamLines cfg (processEntry cfg st entry) rest

/-- Processing a fully well-formed stream: folding the loop body over the
parsed lines. -/
def processAll (cfg : Config) (st : PipelineState) (lines : List RawRecord) : PipelineState :=
  lines.foldl (processEntry cfg) st

/-- The observable output of a finished run: the final state (whose
`saved` log lists every checkpoint artifact) and, per group, the records
of the final output file — `none` when the group's full-run list is empty
and no file is written (wiki_api.py lines 227 and 240). -/
structure RunOutput where
  finalState : PipelineState
  abstract_output : Option (List OutputRecord)
  full_text_output : Option (List OutputRecord)
deriving DecidableEq, Repr

/-- The residual flush of the Abstract buffer at end of stream
(wiki_api.py lines 218-220): if the buffer is non-empty the shared index
is incremented and the buffer saved under the new index.  Unlike the
mid-stream flush, the increment happens inside the per-group guard. -/
def residualFlushAbstract (st : PipelineState) : PipelineState :=
  if st.checkpoint_data_abstract.isEmpty then st else
    { st with
        checkpoint_num := st.checkpoint_num + 1,
        saved := st.saved ++
          [{ num := st.checkpoint_num + 1, column := ColumnGroup.abstractCol,
             data := st.checkpoint_data_abstract }] }

/-- The residual flush of the Full Text buffer at end of stream
(wiki_api.py lines 222-224), incrementing the index again if this buffer
is also non-empty. -/
def residualFlushFullText (st : PipelineState) : PipelineState :=
  if st.checkpoint_data_full_text.isEmpty then st else
    { st with
        checkpoint_num := st.checkpoint_num + 1,
        saved := st.saved ++
          [{ num := st.checkpoint_num + 1, column := ColumnGroup.fullTextCol,
             data := st.checkpoint_data_full_text }] }

/-- End-of-stream finalization (wiki_api.py lines 218-251): the two
residual flushes followed by the final per-group table writes, each
performed only if that group's full-run list is non-empty.  The final
outputs are taken from the retained full-run lists, not reassembled from
checkpoint artifacts. -/
def finalizeRun (st : PipelineState) : RunOutput :=
  let st2 := residualFlushFullText (residualFlushAbstract st)
  { finalState := st2,
    abstract_output := if st2.data_abstract.isEmpty then none else some st2.data_abstract,
    full_text_output := if st2.data_full_text.isEmpty then none else some st2.data_full_text }

/-- A complete run over a well-formed stream. -/
def runClean (cfg : Config) (lines : List RawRecord) : RunOutput :=
  finalizeRun (processAll cfg initState lines)

/-- The final output path for the Abstract group (wiki_api.py line 146). -/
def abstract_output_file (user_pref : String) : String :=
  user_pref ++ "_abstract.parquet"

/-- The final output path for the Full Text group (wiki_api.py line 147). -/
def full_text_output_file (user_pref : String) : String :=
  user_pref ++ "_full_text.parquet"

/-- The path of a checkpoint artifact (wiki_api.py line 83). -/
def checkpoint_path (folder : String) (checkpoint_num : Nat) : String :=
  folder ++ "/checkpoint_" ++ natToDecimal checkpoint_num ++ ".parquet"

/-- The full-run list of a group. -/
def fullRunOf : ColumnGroup → PipelineState → List OutputRecord
  | ColumnGroup.abstractCol, st => st.data_abstract
  | ColumnGroup.fullTextCol, st => st.data_full_text

/-- The current-checkpoint buffer of a group. -/
def bufferOf : ColumnGroup → PipelineState → List OutputRecord
  | ColumnGroup.abstractCol, st => st.checkpoint_data_abstract
  | ColumnGroup.fullTextCol, st => st.checkpoint_data_full_text

/-- The checkpoint artifacts saved for a group, in the order they were
written. -/
def savedOf (g : ColumnGroup) (st : PipelineState) : List Checkpoint :=
  st.saved.filter (fun cp => cp.column == g)

/-- The concatenation of a group's checkpoint artifacts' records, in
written order. -/
def savedRecords (g : ColumnGroup) (st : PipelineState) : List OutputRecord :=
  (savedOf g st).flatMap Checkpoint.data

/-- Specification-side description of the accepted output records of a
stream, given that `seq` raw records were already accepted: acceptance
order, with sequence numbers continuing from `seq`. -/
def acceptedOutputs (cfg : Config) (seq : Nat) : List RawRecord → List OutputRecord
  | [] => []
  | e :: rest =>
    if accepts cfg e then
      makeEntryData cfg (seq + 1) e :: acceptedOutputs cfg (seq + 1) rest
    else
      acceptedOutputs cfg seq rest

/-- The number of accepted records of a stream. -/
def countAccepted (cfg : Config) (lines : List RawRecord) : Nat :=
  (lines.filter (accepts cfg)).length

/-- Whether a column-group is requested by the extraction mode. -/
def groupRequested (cfg : Config) : ColumnGroup → Bool
  | ColumnGroup.abstractCol => requestsAbstract cfg.extract_option
  | ColumnGroup.fullTextCol => requestsFullText cfg.extract_option

/-- The per-group final output of a run. -/
def outputOf : ColumnGroup → RunOutput → Option (List OutputRecord)
  | ColumnGroup.abstractCol, out => out.abstract_output
  | ColumnGroup.fullTextCol, out => out.full_text_output

/-- A complete run over an arbitrary stream: `none` when a malformed line
aborted the run (finalization and final writes never happen). -/
def runStream (cfg : Config) (lines : List (Option RawRecord)) : Option RunOutput :=
  match streamLines cfg initState lines with
  | StreamResult.ok st => some (finalizeRun st)
  | StreamResult.jsonError _ => none

/-- The shape of the checkpoint log: index, column-group and record count
of each saved artifact, in written order. -/
def stateShape (st : PipelineState) : List (Nat × ColumnGroup × Nat) :=
  st.saved.map (fun cp => (cp.num, cp.column, cp.data.length))

/-- Index of a character in the base64 alphabet; left inverse of
`b64Char` on values below 64. -/
def b64Value (c : Char) : Nat :=
  b64Alphabet.indexOf c

/-- Decoder for `base64Encode`, used to prove the encoding injective. -/
def base64Decode : List Char → List Nat
  | c1 :: c2 :: c3 :: c4 :: rest =>
    if c3 == '=' then [b64Value c1 * 4 + b64Value c2 / 16]
    else if c4 == '=' then
      [b64Value c1 * 4 + b64Value c2 / 16, b64Value c2 % 16 * 16 + b64Value c3 / 4]
    else
      (b64Value c1 * 4 + b64Value c2 / 16) ::
      (b64Value c2 % 16 * 16 + b64Value c3 / 4) ::
      (b64Value c3 % 4 * 64 + b64Value c4) :: base64Decode rest
  | _ => []

/-- Decoder for UTF-8 byte sequences, used to prove `strUtf8` injective. -/
def utf8Decode : List Nat → List Nat
  | [] => []
  | a :: rest =>
    if a < 0x80 then a :: utf8Decode rest
    else if a < 0xE0 then
      match rest with
      | b :: rest2 => ((a - 0xC0) * 64 + (b - 0x80)) :: utf8Decode rest2
      | [] => []
    else if a < 0xF0 then
      match rest with
      | b :: c :: rest2 => ((a - 0xE0) * 4096 + (b - 0x80) * 64 + (c - 0x80)) :: utf8Decode rest2
      | _ => []
    else
      match rest with
      | b :: c :: d :: rest2 =>
        ((a - 0xF0) * 262144 + (b - 0x80) * 4096 + (c - 0x80) * 64 + (d - 0x80)) :: utf8Decode rest2
      | _ => []

/-- Decimal parser; left inverse of `natDigits`. -/
def parseDec (l : List Char) : Nat :=
  l.foldl (fun acc c => acc * 10 + (c.toNat - 48)) 0

/-- Example configuration: `both` mode, cleaning off, interval 10. -/
def cfgBothEx : Config :=
  { language_code := "en", extract_option := ExtractOption.both, clean_text_flag := false,
    checkpoint_interval := 10, base_value := "123" }

/-- Example configuration: `abstract` mode, cleaning off, interval 2. -/
def cfgAbstractEx : Config :=
  { language_code := "nl", extract_option := ExtractOption.abstract, clean_text_flag := false,
    checkpoint_interval := 2, base_value := "123" }

/-- Example raw record carrying only `full_text` (no `opening_text`). -/
def recFullTextOnly : RawRecord :=
  { wiki := some "enwiki", language := some "en", title := some "A B",
    full_text := some "body", opening_text := none, popularity_score := some 5 }

/-- Example raw record carrying both texts. -/
def recBothTexts : RawRecord :=
  { wiki := some "enwiki", language := some "en", title := some "T",
    full_text := some "body", opening_text := some "open", popularity_score := none }

/-- Example raw record carrying only `opening_text`. -/
def recAbstractOnly : RawRecord :=
  { wiki := some "nlwiki", language := some "nl", title := some "T",
    full_text := none, opening_text := some "open", popularity_score := none }

/-- Example raw record missing `wiki`. -/
def recNoWiki : RawRecord :=
  { wiki := none, language := some "en", title := some "T",
    full_text := some "body", opening_text := some "open", popularity_score := none }

/-- Example stream: five accepted abstract-mode records with one rejected
record interleaved. -/
def linesFiveEx : List RawRecord :=
  [recAbstractOnly, recAbstractOnly, recNoWiki, recAbstractOnly,
   recAbstractOnly, recAbstractOnly]

/-- Run invariant for `abstract` mode with checkpoint interval 2: the
shared index counts completed pairs, the Abstract buffer holds the
leftover of the last pair, the Full Text side stays empty, and the
checkpoint log holds one two-record Abstract artifact per completed pair,
indexed consecutively from 1. -/
def invAbstract2 (st : PipelineState) : Prop :=
  st.checkpoint_num = st.processed_count / 2 ∧
  st.checkpoint_data_abstract.length = st.processed_count % 2 ∧
  st.checkpoint_data_full_text = [] ∧
  stateShape st =
    (List.range (st.processed_count / 2)).map
      (fun i => (i + 1, ColumnGroup.abstractCol, 2)) ∧
  ∀ cp ∈ st.saved, cp.column = ColumnGroup.abstractCol

/-! ## General lemmas about the embedded pipeline -/

theorem truthy_select (a b : Option String) :
    truthy (if truthy a then a else b) = (truthy a || truthy b) := by
  cases h : truthy a <;> simp [h]

theorem processEntry_rejected (cfg : Config) (st : PipelineState) (e : RawRecord)
    (h : accepts cfg e = false) : processEntry cfg st e = st := by
  simp [processEntry, h]

theorem appendToGroups_processed (cfg : Config) (st : PipelineState) (d : OutputRecord) :
    (appendToGroups cfg st d).processed_count = st.processed_count := by
  unfold appendToGroups
  split <;> split <;> rfl

theorem flushAbstractBuf_processed (st : PipelineState) :
    (flushAbstractBuf st).processed_count = st.processed_count := by
  unfold flushAbstractBuf
  split <;> rfl

theorem flushFullTextBuf_processed (st : PipelineState) :
    (flushFullTextBuf st).processed_count = st.processed_count := by
  unfold flushFullTextBuf
  split <;> rfl

theorem midStreamFlush_processed (st : PipelineState) :
    (midStreamFlush st).processed_count = st.processed_count := by
  unfold midStreamFlush
  rw [flushFullTextBuf_processed, flushAbstractBuf_processed]

theorem flushAbstractBuf_fullRun (g : ColumnGroup) (st : PipelineState) :
    fullRunOf g (flushAbstractBuf st) = fullRunOf g st := by
  unfold flushAbstractBuf
  cases g <;> (split <;> rfl)

theorem flushFullTextBuf_fullRun (g : ColumnGroup) (st : PipelineState) :
    fullRunOf g (flushFullTextBuf st) = fullRunOf g st := by
  unfold flushFullTextBuf
  cases g <;> (split <;> rfl)

theorem midStreamFlush_fullRun (g : ColumnGroup) (st : PipelineState) :
    fullRunOf g (midStreamFlush st) = fullRunOf g st := by
  unfold midStreamFlush
  rw [flushFullTextBuf_fullRun, flushAbstractBuf_fullRun]
  cases g <;> rfl

theorem flushAbstractBuf_cover (g : ColumnGroup) (st : PipelineState) :
    savedRecords g (flushAbstractBuf st) ++ bufferOf g (flushAbstractBuf st) =
      savedRecords g st ++ bufferOf g st := by
  unfold flushAbstractBuf
  cases g <;> split <;>
    simp [savedRecords, savedOf, bufferOf, List.filter_append]

theorem flushFullTextBuf_cover (g : ColumnGroup) (st : PipelineState) :
    savedRecords g (flushFullTextBuf st) ++ bufferOf g (flushFullTextBuf st) =
      savedRecords g st ++ bufferOf g st := by
  unfold flushFullTextBuf
  cases g <;> split <;>
    simp [savedRecords, savedOf, bufferOf, List.filter_append]

theorem midStreamFlush_cover (g : ColumnGroup) (st : PipelineState) :
    savedRecords g (midStreamFlush st) ++ bufferOf g (midStreamFlush st) =
      savedRecords g st ++ bufferOf g st := by
  unfold midStreamFlush
  rw [flushFullTextBuf_cover, flushAbstractBuf_cover]
  cases g <;> simp [savedRecords, savedOf, bufferOf]

theorem residualFlushAbstract_saved (g : ColumnGroup) (st : PipelineState) :
    savedRecords g (residualFlushAbstract st) =
      savedRecords g st ++
        (if g = ColumnGroup.abstractCol then bufferOf g st else []) := by
  unfold residualFlushAbstract
  cases g <;> split <;>
    simp_all [savedRecords, savedOf, bufferOf, List.filter_append, List.isEmpty_iff]

theorem residualFlushFullText_saved (g : ColumnGroup) (st : PipelineState) :
    savedRecords g (residualFlushFullText st) =
      savedRecords g st ++
        (if g = ColumnGroup.fullTextCol then bufferOf g st else []) := by
  unfold residualFlushFullText
  cases g <;> split <;>
    simp_all [savedRecords, savedOf, bufferOf, List.filter_append, List.isEmpty_iff]

theorem residualFlushAbstract_fullRun (g : ColumnGroup) (st : PipelineState) :
    fullRunOf g (residualFlushAbstract st) = fullRunOf g st := by
  unfold residualFlushAbstract
  cases g <;> (split <;> rfl)

theorem residualFlushFullText_fullRun (g : ColumnGroup) (st : PipelineState) :
    fullRunOf g (residualFlushFullText st) = fullRunOf g st := by
  unfold residualFlushFullText
  cases g <;> (split <;> rfl)

theorem residualFlushAbstract_buffer (g : ColumnGroup) (st : PipelineState) :
    bufferOf g (residualFlushAbstract st) = bufferOf g st := by
  unfold residualFlushAbstract
  cases g <;> (split <;> rfl)

theorem residualFlushFullText_buffer (g : ColumnGroup) (st : PipelineState) :
    bufferOf g (residualFlushFullText st) = bufferOf g st := by
  unfold residualFlushFullText
  cases g <;> (split <;> rfl)

theorem finalizeRun_saved (g : ColumnGroup) (st : PipelineState) :
    savedRecords g (finalizeRun st).finalState =
      savedRecords g st ++ bufferOf g st := by
  unfold finalizeRun
  rw [residualFlushFullText_saved, residualFlushAbstract_saved,
    residualFlushAbstract_buffer]
  cases g <;> simp

theorem finalizeRun_fullRun (g : ColumnGroup) (st : PipelineState) :
    fullRunOf g (finalizeRun st).finalState = fullRunOf g st := by
  unfold finalizeRun
  rw [residualFlushFullText_fullRun, residualFlushAbstract_fullRun]

theorem appendToGroups_fullRun (cfg : Config) (g : ColumnGroup) (st : PipelineState)
    (d : OutputRecord) :
    fullRunOf g (appendToGroups cfg st d) =
      fullRunOf g st ++ (if groupRequested cfg g then [d] else []) := by
  unfold appendToGroups groupRequested
  cases g <;> split <;> split <;> simp_all [fullRunOf]

theorem appendToGroups_buffer (cfg : Config) (g : ColumnGroup) (st : PipelineState)
    (d : OutputRecord) :
    bufferOf g (appendToGroups cfg st d) =
      bufferOf g st ++ (if groupRequested cfg g then [d] else []) := by
  unfold appendToGroups groupRequested
  cases g <;> split <;> split <;> simp_all [bufferOf]

theorem appendToGroups_saved (cfg : Config) (st : PipelineState) (d : OutputRecord) :
    (appendToGroups cfg st d).saved = st.saved := by
  unfold appendToGroups
  split <;> split <;> rfl

theorem appendToGroups_savedRecords (cfg : Config) (g : ColumnGroup) (st : PipelineState)
    (d : OutputRecord) :
    savedRecords g (appendToGroups cfg st d) = savedRecords g st := by
  unfold savedRecords savedOf
  rw [appendToGroups_saved]

theorem fullRunOf_setProcessed (g : ColumnGroup) (st : PipelineState) (n : Nat) :
    fullRunOf g { st with processed_count := n } = fullRunOf g st := by
  cases g <;> rfl

theorem bufferOf_setProcessed (g : ColumnGroup) (st : PipelineState) (n : Nat) :
    bufferOf g { st with processed_count := n } = bufferOf g st := by
  cases g <;> rfl

theorem savedRecords_setProcessed (g : ColumnGroup) (st : PipelineState) (n : Nat) :
    savedRecords g { st with processed_count := n } = savedRecords g st := rfl

theorem checkpointIfDue_processed (cfg : Config) (st : PipelineState) :
    (checkpointIfDue cfg st).processed_count = st.processed_count := by
  unfold checkpointIfDue
  split
  · rw [midStreamFlush_processed]
  · rfl

theorem checkpointIfDue_fullRun (cfg : Config) (g : ColumnGroup) (st : PipelineState) :
    fullRunOf g (checkpointIfDue cfg st) = fullRunOf g st := by
  unfold checkpointIfDue
  split
  · rw [midStreamFlush_fullRun]
  · rfl

theorem checkpointIfDue_cover (cfg : Config) (g : ColumnGroup) (st : PipelineState) :
    savedRecords g (checkpointIfDue cfg st) ++ bufferOf g (checkpointIfDue cfg st) =
      savedRecords g st ++ bufferOf g st := by
  unfold checkpointIfDue
  split
  · rw [midStreamFlush_cover]
  · rfl

theorem incrementProcessed_fullRun (g : ColumnGroup) (st : PipelineState) :
    fullRunOf g (incrementProcessed st) = fullRunOf g st := by
  cases g <;> rfl

theorem incrementProcessed_buffer (g : ColumnGroup) (st : PipelineState) :
    bufferOf g (incrementProcessed st) = bufferOf g st := by
  cases g <;> rfl

theorem incrementProcessed_savedRecords (g : ColumnGroup) (st : PipelineState) :
    savedRecords g (incrementProcessed st) = savedRecords g st := rfl

theorem processEntry_processed (cfg : Config) (st : PipelineState) (e : RawRecord) :
    (processEntry cfg st e).processed_count =
      if accepts cfg e then st.processed_count + 1 else st.processed_count := by
  unfold processEntry processAccepted
  split
  · rw [checkpointIfDue_processed]
    simp [incrementProcessed, appendToGroups_processed]
  · rfl

theorem processEntry_fullRun (cfg : Config) (g : ColumnGroup) (st : PipelineState)
    (e : RawRecord) :
    fullRunOf g (processEntry cfg st e) =
      fullRunOf g st ++
        (if accepts cfg e && groupRequested cfg g then
          [makeEntryData cfg (st.processed_count + 1) e] else []) := by
  unfold processEntry processAccepted
  split
  · rename_i hacc
    rw [checkpointIfDue_fullRun, incrementProcessed_fullRun, appendToGroups_fullRun, hacc]
    simp
  · rename_i hacc
    simp [Bool.not_eq_true] at hacc
    simp [hacc]

theorem processEntry_cover (cfg : Config) (g : ColumnGroup) (st : PipelineState)
    (e : RawRecord) :
    savedRecords g (processEntry cfg st e) ++ bufferOf g (processEntry cfg st e) =
      (savedRecords g st ++ bufferOf g st) ++
        (if accepts cfg e && groupRequested cfg g then
          [makeEntryData cfg (st.processed_count + 1) e] else []) := by
  unfold processEntry processAccepted
  split
  · rename_i hacc
    rw [checkpointIfDue_cover, incrementProcessed_savedRecords, incrementProcessed_buffer,
      appendToGroups_savedRecords, appendToGroups_buffer, hacc]
    simp [List.append_assoc]
  · rename_i hacc
    simp [Bool.not_eq_true] at hacc
    simp [hacc]

theorem processAll_cons (cfg : Config) (st : PipelineState) (e : RawRecord)
    (rest : List RawRecord) :
    processAll cfg st (e :: rest) = processAll cfg (processEntry cfg st e) rest := rfl

theorem processAll_processed (cfg : Config) (lines : List RawRecord) :
    ∀ st : PipelineState,
      (processAll cfg st lines).processed_count =
        st.processed_count + countAccepted cfg lines := by
  induction lines with
  | nil => intro st; simp [processAll, countAccepted]
  | cons e rest ih =>
    intro st
    rw [processAll_cons, ih, processEntry_processed]
    by_cases h : accepts cfg e = true
    · simp [countAccepted, List.filter_cons, h]
      omega
    · simp [countAccepted, List.filter_cons, h]

theorem processAll_fullRun (cfg : Config) (g : ColumnGroup) (lines : List RawRecord) :
    ∀ st : PipelineState,
      fullRunOf g (processAll cfg st lines) =
        fullRunOf g st ++
          (if groupRequested cfg g then
            acceptedOutputs cfg st.processed_count lines else []) := by
  induction lines with
  | nil => intro st; simp [processAll, acceptedOutputs]
  | cons e rest ih =>
    intro st
    rw [processAll_cons, ih, processEntry_fullRun, processEntry_processed]
    by_cases hacc : accepts cfg e = true <;>
      by_cases hreq : groupRequested cfg g = true <;>
      simp [acceptedOutputs, hacc, hreq, List.append_assoc]

theorem processAll_cover (cfg : Config) (g : ColumnGroup) (lines : List RawRecord) :
    ∀ st : PipelineState,
      savedRecords g (processAll cfg st lines) ++ bufferOf g (processAll cfg st lines) =
        (savedRecords g st ++ bufferOf g st) ++
          (if groupRequested cfg g then
            acceptedOutputs cfg st.processed_count lines else []) := by
  induction lines with
  | nil => intro st; simp [processAll, acceptedOutputs]
  | cons e rest ih =>
    intro st
    rw [processAll_cons, ih, processEntry_cover, processEntry_processed]
    by_cases hacc : accepts cfg e = true <;>
      by_cases hreq : groupRequested cfg g = true <;>
      simp [acceptedOutputs, hacc, hreq, List.append_assoc]

/-! ## C10 -/

/-- C10: `clean_text` returns null exactly on null or empty input (the
empty string maps to null, not to the empty string), and returns a
non-null — possibly empty — string on every non-empty input, e.g. the
all-digit input `"123"` maps to the empty string, not to null. -/
theorem clean_text_none_iff_falsy :
    (∀ t : Option String, clean_text t = none ↔ (t = none ∨ t = some "")) ∧
    clean_text (some "123") = some "" := by
  constructor
  · intro t
    match t with
    | none => simp [clean_text]
    | some s =>
      by_cases h : s = ""
      · simp [clean_text, h]
      · simp [clean_text, h]
  · decide

/-! ## C7 -/

/-- C7 counterexample: `clean_text` is not idempotent on every non-null
string.  On `"2024!"` the first pass strips every character, producing the
empty string, and the second pass maps the empty string to null. -/
theorem clean_text_idempotence_cex :
    clean_text (some "2024!") = some "" ∧
    clean_text (clean_text (some "2024!")) = none ∧
    clean_text (clean_text (some "2024!")) ≠ clean_text (some "2024!") := by
  refine ⟨by decide, by decide, by decide⟩

/-- C7 (amended): `clean_text` is idempotent on every input whose cleaned
form is not the empty string — in particular on null, on the empty string,
and on every string containing at least one letter or whitespace
character; it preserves exactly the Unicode letters and whitespace in
order (it is literally the `keepChar` filter), and `"Café 2024!"` yields
`"Café "`. -/
theorem clean_text_idempotent_amended :
    (∀ t : Option String, clean_text t ≠ some "" →
      clean_text (clean_text t) = clean_text t) ∧
    (∀ s : String, s ≠ "" →
      clean_text (some s) = some (String.mk (s.data.filter keepChar))) ∧
    clean_text (some "Café 2024!") = some "Café " := by
  refine ⟨?_, ?_, by decide⟩
  · intro t h
    match t with
    | none => simp [clean_text]
    | some s =>
      by_cases hs : s = ""
      · simp [clean_text, hs]
      · have hfilter : List.filter keepChar (List.filter keepChar s.data) =
            List.filter keepChar s.data := by
          rw [List.filter_filter]
          simp
        have hne : ¬ (String.mk (s.data.filter keepChar) = "") := by
          intro hcontra
          apply h
          simp [clean_text, hs, hcontra]
        simp [clean_text, hs, hne, hfilter]
  · intro s hs
    simp [clean_text, hs]

/-- Witness for the amended C7 theorem at the concrete input
`"Café 2024!"`. -/
theorem clean_text_idempotent_amended_witness :
    clean_text (some "Café 2024!") ≠ some "" ∧
    clean_text (clean_text (some "Café 2024!")) = clean_text (some "Café 2024!") := by
  refine ⟨by decide, clean_text_idempotent_amended.1 (some "Café 2024!") (by decide)⟩

/-! ## C5 -/

/-- C5: a raw record with a non-truthy `wiki`, `language` or `title` is
rejected by the acceptance gate and leaves the entire pipeline state
unchanged — it contributes zero output records to both column-groups,
regardless of which text fields are present; conversely a record with
truthy `wiki`, `language` and `title` and at least one truthy requested
text field is accepted and increments the shared processed counter. -/
theorem acceptance_gate_core_fields (cfg : Config) (st : PipelineState) (e : RawRecord) :
    ((truthy e.wiki = false ∨ truthy e.language = false ∨ truthy e.title = false) →
      accepts cfg e = false ∧ processEntry cfg st e = st) ∧
    (truthy e.wiki = true → truthy e.language = true → truthy e.title = true →
      (truthy (if requestsFullText cfg.extract_option then e.full_text else none) = true ∨
       truthy (if requestsAbstract cfg.extract_option then e.opening_text else none) = true) →
      accepts cfg e = true ∧
      (processEntry cfg st e).processed_count = st.processed_count + 1) := by
  have hgate : accepts cfg e =
      (truthy e.wiki && truthy e.language && truthy e.title &&
        (truthy (if requestsFullText cfg.extract_option then e.full_text else none) ||
         truthy (if requestsAbstract cfg.extract_option then e.opening_text else none))) := by
    unfold accepts
    simp only [truthy_select]
  constructor
  · intro h
    have hacc : accepts cfg e = false := by
      rw [hgate]
      rcases h with h | h | h <;> simp [h]
    exact ⟨hacc, processEntry_rejected cfg st e hacc⟩
  · intro hw hl ht htext
    have hacc : accepts cfg e = true := by
      rw [hgate, hw, hl, ht]
      rcases htext with h | h <;> simp [h]
    refine ⟨hacc, ?_⟩
    rw [processEntry_processed]
    simp [hacc]

/-- Witness for C5: a record missing `wiki` is dropped whole even though
both texts are present; a record with the core fields and a requested text
is accepted. -/
theorem acceptance_gate_witness :
    (accepts cfgBothEx recNoWiki = false ∧
      processEntry cfgBothEx initState recNoWiki = initState) ∧
    (accepts cfgBothEx recFullTextOnly = true ∧
      (processEntry cfgBothEx initState recFullTextOnly).processed_count =
        initState.processed_count + 1) := by
  constructor
  · exact (acceptance_gate_core_fields cfgBothEx initState recNoWiki).1 (Or.inl (by decide))
  · exact (acceptance_gate_core_fields cfgBothEx initState recFullTextOnly).2
      (by decide) (by decide) (by decide) (Or.inl (by decide))

/-! ## C8 -/

theorem streamLines_malformed (cfg : Config) (pfx : List RawRecord) :
    ∀ (st : PipelineState) (rest : List (Option RawRecord)),
      streamLines cfg st (pfx.map some ++ none :: rest) =
        StreamResult.jsonError (processAll cfg st pfx) := by
  induction pfx with
  | nil =>
    intro st rest
    simp [streamLines, processAll]
  | cons e p ih =>
    intro st rest
    simp only [List.map_cons, List.cons_append, streamLines]
    rw [processAll_cons]
    exact ih _ rest

/-- C8: a malformed line (one on which `json.loads` raises) aborts the
whole run at that line: the streaming loop stops with exactly the state
produced by the valid prefix — no later line and nothing from the
malformed line reaches any accumulator, whatever the rest of the stream
holds — and no finalization or final write happens. -/
theorem malformed_line_aborts_run (cfg : Config) (pfx : List RawRecord)
    (rest : List (Option RawRecord)) :
    streamLines cfg initState (pfx.map some ++ none :: rest) =
      StreamResult.jsonError (processAll cfg initState pfx) ∧
    runStream cfg (pfx.map some ++ none :: rest) = none := by
  refine ⟨streamLines_malformed cfg pfx initState rest, ?_⟩
  unfold runStream
  rw [streamLines_malformed cfg pfx initState rest]

/-! ## C9 -/

theorem suffix_append_list {l l2 : List Char} (h : l <:+ l2) (l1 : List Char) :
    l <:+ l1 ++ l2 := by
  obtain ⟨t, rfl⟩ := h
  exact ⟨l1 ++ t, by simp⟩

theorem strEndsWith_concat (s t u : String) (h : u.data <:+ t.data) :
    strEndsWith (s ++ t) u = true := by
  unfold strEndsWith
  rw [List.isSuffixOf_iff_suffix, String.data_append]
  exact suffix_append_list h s.data

/-- C9: `validate_output_file` errors exactly on paths that do not end in
`.parquet` and succeeds exactly on paths that do; every artifact path the
driver ever writes — the two final output paths built at wiki_api.py lines
146-147 and every checkpoint path built at line 83 — carries the
`.parquet` suffix by construction, so validation succeeds on all of them
and the rejection branch can never fire after processing has begun. -/
theorem output_path_validation (p : String) (pref : String) (folder : String) (n : Nat) :
    (validate_output_file p = Except.ok () ↔ ".parquet".data <:+ p.data) ∧
    (¬ ".parquet".data <:+ p.data →
      validate_output_file p =
        Except.error "Output file must have a .parquet extension.") ∧
    validate_output_file (abstract_output_file pref) = Except.ok () ∧
    validate_output_file (full_text_output_file pref) = Except.ok () ∧
    validate_output_file (checkpoint_path folder n) = Except.ok () ∧
    validate_output_file "out.csv" =
      Except.error "Output file must have a .parquet extension." := by
  have hiff : strEndsWith p ".parquet" = true ↔ ".parquet".data <:+ p.data := by
    unfold strEndsWith
    exact List.isSuffixOf_iff_suffix
  refine ⟨?_, ?_, ?_, ?_, ?_, by rfl⟩
  · cases hb : strEndsWith p ".parquet" <;>
      simp [validate_output_file, hb, ← hiff]
  · intro hn
    cases hb : strEndsWith p ".parquet"
    · simp [validate_output_file, hb]
    · exact absurd (hiff.mp hb) hn
  · have hs : strEndsWith (abstract_output_file pref) ".parquet" = true := by
      unfold abstract_output_file
      exact strEndsWith_concat pref "_abstract.parquet" ".parquet"
        (List.isSuffixOf_iff_suffix.mp (by decide))
    simp [validate_output_file, hs]
  · have hs : strEndsWith (full_text_output_file pref) ".parquet" = true := by
      unfold full_text_output_file
      exact strEndsWith_concat pref "_full_text.parquet" ".parquet"
        (List.isSuffixOf_iff_suffix.mp (by decide))
    simp [validate_output_file, hs]
  · have hs : strEndsWith (checkpoint_path folder n) ".parquet" = true := by
      unfold checkpoint_path
      exact strEndsWith_concat (folder ++ "/checkpoint_" ++ natToDecimal n) ".parquet"
        ".parquet" (List.suffix_refl _)
    simp [validate_output_file, hs]

/-- Witness for C9 at the spec's example `.csv` path and a concrete
prefix. -/
theorem output_path_validation_witness :
    validate_output_file "out.csv" =
      Except.error "Output file must have a .parquet extension." ∧
    validate_output_file (abstract_output_file "nlwiki") = Except.ok () := by
  refine ⟨?_, (output_path_validation "out.csv" "nlwiki" "scratch" 1).2.2.1⟩
  refine (output_path_validation "out.csv" "nlwiki" "scratch" 1).2.1 ?_
  intro h
  exact absurd (List.isSuffixOf_iff_suffix.mpr h) (by decide)

/-! ## C1 -/

/-- C1 counterexample: with `extract_option = both` and a record whose
`opening_text` is absent but whose `full_text` is present, the accepted
record is appended to the Abstract group's full-run and checkpoint
buffers as well (with a null `Abstract` column), and the Abstract final
output file is written — the record does not stay out of the Abstract
group as claimed. -/
theorem both_mode_single_text_in_abstract_group_cex :
    recFullTextOnly.opening_text = none ∧
    accepts cfgBothEx recFullTextOnly = true ∧
    (processAll cfgBothEx initState [recFullTextOnly]).data_abstract.length = 1 ∧
    (processAll cfgBothEx initState [recFullTextOnly]).checkpoint_data_abstract.length = 1 ∧
    (runClean cfgBothEx [recFullTextOnly]).abstract_output ≠ none := by
  refine ⟨rfl, by decide, by decide, by decide, by decide⟩

/-- C1 (amended): in `both` mode, routing ignores which texts are present:
every accepted record — even one with only one of the two texts — is
appended to BOTH groups' full-run sequences and to both groups'
checkpointed record streams (the absent text's column is null). -/
theorem both_mode_routes_accepted_to_both_groups (cfg : Config) (st : PipelineState)
    (e : RawRecord) (g : ColumnGroup) (hopt : cfg.extract_option = ExtractOption.both)
    (hacc : accepts cfg e = true) :
    fullRunOf g (processEntry cfg st e) =
      fullRunOf g st ++ [makeEntryData cfg (st.processed_count + 1) e] ∧
    savedRecords g (processEntry cfg st e) ++ bufferOf g (processEntry cfg st e) =
      (savedRecords g st ++ bufferOf g st) ++
        [makeEntryData cfg (st.processed_count + 1) e] := by
  have hreq : groupRequested cfg g = true := by
    cases g <;> simp [groupRequested, hopt, requestsAbstract, requestsFullText]
  constructor
  · rw [processEntry_fullRun, hacc, hreq]
    simp
  · rw [processEntry_cover, hacc, hreq]
    simp

/-- Witness for the amended C1 theorem: the record carrying only
`full_text` lands in the Abstract group's sequences too. -/
theorem both_mode_routes_witness :
    fullRunOf ColumnGroup.abstractCol (processEntry cfgBothEx initState recFullTextOnly) =
      fullRunOf ColumnGroup.abstractCol initState ++
        [makeEntryData cfgBothEx (initState.processed_count + 1) recFullTextOnly] ∧
    savedRecords ColumnGroup.abstractCol (processEntry cfgBothEx initState recFullTextOnly) ++
        bufferOf ColumnGroup.abstractCol (processEntry cfgBothEx initState recFullTextOnly) =
      (savedRecords ColumnGroup.abstractCol initState ++
        bufferOf ColumnGroup.abstractCol initState) ++
        [makeEntryData cfgBothEx (initState.processed_count + 1) recFullTextOnly] :=
  both_mode_routes_accepted_to_both_groups cfgBothEx initState recFullTextOnly
    ColumnGroup.abstractCol rfl (by decide)

/-! ## C2 -/

/-- C2 counterexample: a `both`-mode run of one accepted record carrying
both texts, with a checkpoint interval larger than the stream, reaches the
single residual flush with both buffers pending; the index advances twice
(from 0 to 2), not once, and the two artifacts written at that one flush
event carry distinct indices 1 and 2. -/
theorem residual_flush_distinct_indices_cex :
    stateShape (runClean cfgBothEx [recBothTexts]).finalState =
      [(1, ColumnGroup.abstractCol, 1), (2, ColumnGroup.fullTextCol, 1)] ∧
    (runClean cfgBothEx [recBothTexts]).finalState.checkpoint_num = 2 ∧
    (runClean cfgBothEx [recBothTexts]).finalState.checkpoint_num ≠ 1 := by
  refine ⟨by decide, by decide, by decide⟩

/-- C2 (amended): the checkpoint index is shared between the groups.  At
every mid-stream flush event it advances exactly once — artifacts for
both groups written at that event carry the same (new) index.  At the
residual flush, however, the index advances once per non-empty buffer:
when both groups have pending records it advances twice and the two
residual artifacts carry distinct consecutive indices. -/
theorem checkpoint_index_advance (st : PipelineState) :
    ((midStreamFlush st).checkpoint_num = st.checkpoint_num + 1 ∧
     (midStreamFlush st).saved = st.saved ++
       (if st.checkpoint_data_abstract.isEmpty then [] else
         [{ num := st.checkpoint_num + 1, column := ColumnGroup.abstractCol,
            data := st.checkpoint_data_abstract }]) ++
       (if st.checkpoint_data_full_text.isEmpty then [] else
         [{ num := st.checkpoint_num + 1, column := ColumnGroup.fullTextCol,
            data := st.checkpoint_data_full_text }])) ∧
    ((finalizeRun st).finalState.checkpoint_num =
      st.checkpoint_num + (if st.checkpoint_data_abstract.isEmpty then 0 else 1) +
        (if st.checkpoint_data_full_text.isEmpty then 0 else 1) ∧
     (finalizeRun st).finalState.saved = st.saved ++
       (if st.checkpoint_data_abstract.isEmpty then [] else
         [{ num := st.checkpoint_num + 1, column := ColumnGroup.abstractCol,
            data := st.checkpoint_data_abstract }]) ++
       (if st.checkpoint_data_full_text.isEmpty then [] else
         [{ num := st.checkpoint_num +
              (if st.checkpoint_data_abstract.isEmpty then 1 else 2),
            column := ColumnGroup.fullTextCol,
            data := st.checkpoint_data_full_text }])) := by
  by_cases hA : st.checkpoint_data_abstract.isEmpty <;>
    by_cases hF : st.checkpoint_data_full_text.isEmpty <;>
    simp [midStreamFlush, flushAbstractBuf, flushFullTextBuf, finalizeRun,
      residualFlushAbstract, residualFlushFullText, hA, hF]

/-! ## C6 machinery: index bounds and strictly increasing per-group indices -/

theorem midStreamFlush_num (st : PipelineState) :
    (midStreamFlush st).checkpoint_num = st.checkpoint_num + 1 := by
  by_cases hA : st.checkpoint_data_abstract.isEmpty <;>
    by_cases hF : st.checkpoint_data_full_text.isEmpty <;>
    simp [midStreamFlush, flushAbstractBuf, flushFullTextBuf, hA, hF]

theorem midStreamFlush_saved_eq (st : PipelineState) :
    (midStreamFlush st).saved = st.saved ++
      (if st.checkpoint_data_abstract.isEmpty then [] else
        [{ num := st.checkpoint_num + 1, column := ColumnGroup.abstractCol,
           data := st.checkpoint_data_abstract }]) ++
      (if st.checkpoint_data_full_text.isEmpty then [] else
        [{ num := st.checkpoint_num + 1, column := ColumnGroup.fullTextCol,
           data := st.checkpoint_data_full_text }]) := by
  by_cases hA : st.checkpoint_data_abstract.isEmpty <;>
    by_cases hF : st.checkpoint_data_full_text.isEmpty <;>
    simp [midStreamFlush, flushAbstractBuf, flushFullTextBuf, hA, hF]

theorem finalizeRun_num_eq (st : PipelineState) :
    (finalizeRun st).finalState.checkpoint_num =
      st.checkpoint_num + (if st.checkpoint_data_abstract.isEmpty then 0 else 1) +
        (if st.checkpoint_data_full_text.isEmpty then 0 else 1) := by
  by_cases hA : st.checkpoint_data_abstract.isEmpty <;>
    by_cases hF : st.checkpoint_data_full_text.isEmpty <;>
    simp [finalizeRun, residualFlushAbstract, residualFlushFullText, hA, hF]

theorem finalizeRun_saved_eq (st : PipelineState) :
    (finalizeRun st).finalState.saved = st.saved ++
      (if st.checkpoint_data_abstract.isEmpty then [] else
        [{ num := st.checkpoint_num + 1, column := ColumnGroup.abstractCol,
           data := st.checkpoint_data_abstract }]) ++
      (if st.checkpoint_data_full_text.isEmpty then [] else
        [{ num := st.checkpoint_num +
             (if st.checkpoint_data_abstract.isEmpty then 1 else 2),
           column := ColumnGroup.fullTextCol,
           data := st.checkpoint_data_full_text }]) := by
  by_cases hA : st.checkpoint_data_abstract.isEmpty <;>
    by_cases hF : st.checkpoint_data_full_text.isEmpty <;>
    simp [finalizeRun, residualFlushAbstract, residualFlushFullText, hA, hF]

theorem pairwise_lt_append_singleton {l : List Nat} {x : Nat}
    (hp : l.Pairwise (· < ·)) (hx : ∀ a ∈ l, a < x) :
    (l ++ [x]).Pairwise (· < ·) := by
  rw [List.pairwise_append]
  refine ⟨hp, List.pairwise_singleton _ _, ?_⟩
  intro a ha b hb
  rw [List.mem_singleton] at hb
  subst hb
  exact hx a ha

theorem savedOf_mem_saved {g : ColumnGroup} {st : PipelineState} {cp : Checkpoint}
    (h : cp ∈ savedOf g st) : cp ∈ st.saved :=
  List.mem_of_mem_filter h

theorem midStreamFlush_index_inv (st : PipelineState)
    (hbound : ∀ cp ∈ st.saved, 1 ≤ cp.num ∧ cp.num ≤ st.checkpoint_num)
    (hpair : ∀ g : ColumnGroup,
      ((savedOf g st).map Checkpoint.num).Pairwise (· < ·)) :
    (∀ cp ∈ (midStreamFlush st).saved,
      1 ≤ cp.num ∧ cp.num ≤ (midStreamFlush st).checkpoint_num) ∧
    (∀ g : ColumnGroup,
      ((savedOf g (midStreamFlush st)).map Checkpoint.num).Pairwise (· < ·)) := by
  constructor
  · intro cp hcp
    rw [midStreamFlush_saved_eq] at hcp
    rw [midStreamFlush_num]
    rcases List.mem_append.mp hcp with hcp | hcp
    · rcases List.mem_append.mp hcp with hcp | hcp
      · have := hbound cp hcp
        omega
      · split at hcp <;> simp_all
    · split at hcp <;> simp_all
  · intro g
    unfold savedOf
    rw [midStreamFlush_saved_eq, List.filter_append, List.filter_append]
    have hpg := hpair g
    unfold savedOf at hpg
    cases g <;>
      by_cases hA : st.checkpoint_data_abstract.isEmpty <;>
      by_cases hF : st.checkpoint_data_full_text.isEmpty <;>
      simp_all [List.filter_cons] <;>
      first
      | exact hpg
      | (refine pairwise_lt_append_singleton hpg ?_
         intro a ha
         rw [List.mem_map] at ha
         obtain ⟨cp, hcp, rfl⟩ := ha
         have hb := hbound cp (List.mem_of_mem_filter hcp)
         omega)

theorem checkpointIfDue_index_inv (cfg : Config) (st : PipelineState)
    (hbound : ∀ cp ∈ st.saved, 1 ≤ cp.num ∧ cp.num ≤ st.checkpoint_num)
    (hpair : ∀ g : ColumnGroup,
      ((savedOf g st).map Checkpoint.num).Pairwise (· < ·)) :
    (∀ cp ∈ (checkpointIfDue cfg st).saved,
      1 ≤ cp.num ∧ cp.num ≤ (checkpointIfDue cfg st).checkpoint_num) ∧
    (∀ g : ColumnGroup,
      ((savedOf g (checkpointIfDue cfg st)).map Checkpoint.num).Pairwise (· < ·)) := by
  unfold checkpointIfDue
  split
  · exact midStreamFlush_index_inv st hbound hpair
  · exact ⟨hbound, hpair⟩

theorem processEntry_index_inv (cfg : Config) (st : PipelineState) (e : RawRecord)
    (hbound : ∀ cp ∈ st.saved, 1 ≤ cp.num ∧ cp.num ≤ st.checkpoint_num)
    (hpair : ∀ g : ColumnGroup,
      ((savedOf g st).map Checkpoint.num).Pairwise (· < ·)) :
    (∀ cp ∈ (processEntry cfg st e).saved,
      1 ≤ cp.num ∧ cp.num ≤ (processEntry cfg st e).checkpoint_num) ∧
    (∀ g : ColumnGroup,
      ((savedOf g (processEntry cfg st e)).map Checkpoint.num).Pairwise (· < ·)) := by
  unfold processEntry processAccepted
  split
  · have hsame : (incrementProcessed
        (appendToGroups cfg st (makeEntryData cfg (st.processed_count + 1) e))).saved
        = st.saved := by
      simp [incrementProcessed, appendToGroups_saved]
    have hsamenum : (incrementProcessed
        (appendToGroups cfg st (makeEntryData cfg (st.processed_count + 1) e))).checkpoint_num
        = st.checkpoint_num := by
      unfold incrementProcessed appendToGroups
      split <;> split <;> rfl
    have hsavedOf : ∀ g : ColumnGroup, savedOf g (incrementProcessed
        (appendToGroups cfg st (makeEntryData cfg (st.processed_count + 1) e)))
        = savedOf g st := by
      intro g
      unfold savedOf
      rw [hsame]
    refine checkpointIfDue_index_inv cfg _ ?_ ?_
    · rw [hsame, hsamenum]
      exact hbound
    · intro g
      rw [hsavedOf g]
      exact hpair g
  · exact ⟨hbound, hpair⟩

theorem processAll_index_inv (cfg : Config) (lines : List RawRecord) :
    ∀ st : PipelineState,
      (∀ cp ∈ st.saved, 1 ≤ cp.num ∧ cp.num ≤ st.checkpoint_num) →
      (∀ g : ColumnGroup, ((savedOf g st).map Checkpoint.num).Pairwise (· < ·)) →
      (∀ cp ∈ (processAll cfg st lines).saved,
        1 ≤ cp.num ∧ cp.num ≤ (processAll cfg st lines).checkpoint_num) ∧
      (∀ g : ColumnGroup,
        ((savedOf g (processAll cfg st lines)).map Checkpoint.num).Pairwise (· < ·)) := by
  induction lines with
  | nil => intro st hbound hpair; exact ⟨hbound, hpair⟩
  | cons e rest ih =>
    intro st hbound hpair
    rw [processAll_cons]
    have h := processEntry_index_inv cfg st e hbound hpair
    exact ih _ h.1 h.2

theorem finalizeRun_pairwise (st : PipelineState)
    (hbound : ∀ cp ∈ st.saved, 1 ≤ cp.num ∧ cp.num ≤ st.checkpoint_num)
    (hpair : ∀ g : ColumnGroup,
      ((savedOf g st).map Checkpoint.num).Pairwise (· < ·)) (g : ColumnGroup) :
    ((savedOf g (finalizeRun st).finalState).map Checkpoint.num).Pairwise (· < ·) := by
  unfold savedOf
  rw [finalizeRun_saved_eq, List.filter_append, List.filter_append]
  have hpg := hpair g
  unfold savedOf at hpg
  cases g <;>
    by_cases hA : st.checkpoint_data_abstract.isEmpty <;>
    by_cases hF : st.checkpoint_data_full_text.isEmpty <;>
    simp_all [List.filter_cons] <;>
    first
    | exact hpg
    | (refine pairwise_lt_append_singleton hpg ?_
       intro a ha
       rw [List.mem_map] at ha
       obtain ⟨cp, hcp, rfl⟩ := ha
       have hb := hbound cp (List.mem_of_mem_filter hcp)
       omega)

/-! ## C6 -/

/-- C6: for each column-group and every well-formed input stream, the
concatenation of the group's checkpoint artifacts' records — whose
indices are strictly increasing in written order — equals the record
sequence of the group's final output file, which equals the group's
accepted records in acceptance order; the final output is taken from the
retained full-run list (`finalizeRun` projects `data_abstract` /
`data_full_text` directly), never read back from checkpoint artifacts. -/
theorem checkpoints_cover_final_output (cfg : Config) (lines : List RawRecord)
    (g : ColumnGroup) (_hpos : 0 < cfg.checkpoint_interval) :
    savedRecords g (runClean cfg lines).finalState =
      fullRunOf g (runClean cfg lines).finalState ∧
    fullRunOf g (runClean cfg lines).finalState =
      (if groupRequested cfg g then acceptedOutputs cfg 0 lines else []) ∧
    outputOf g (runClean cfg lines) =
      (if (fullRunOf g (runClean cfg lines).finalState).isEmpty then none
       else some (fullRunOf g (runClean cfg lines).finalState)) ∧
    ((savedOf g (runClean cfg lines).finalState).map Checkpoint.num).Pairwise
      (· < ·) := by
  have hinit_saved : savedRecords g initState = [] := by
    cases g <;> rfl
  have hinit_buf : bufferOf g initState = [] := by
    cases g <;> rfl
  have hinit_full : fullRunOf g initState = [] := by
    cases g <;> rfl
  have hcover := processAll_cover cfg g lines initState
  have hfull := processAll_fullRun cfg g lines initState
  rw [hinit_saved, hinit_buf] at hcover
  rw [hinit_full] at hfull
  simp only [List.nil_append] at hcover hfull
  have hB : fullRunOf g (runClean cfg lines).finalState =
      (if groupRequested cfg g then acceptedOutputs cfg 0 lines else []) := by
    show fullRunOf g (finalizeRun (processAll cfg initState lines)).finalState = _
    rw [finalizeRun_fullRun, hfull]
    rfl
  refine ⟨?_, hB, ?_, ?_⟩
  · show savedRecords g (finalizeRun (processAll cfg initState lines)).finalState =
      fullRunOf g (finalizeRun (processAll cfg initState lines)).finalState
    rw [finalizeRun_saved, finalizeRun_fullRun, hcover, hfull]
  · cases g <;> rfl
  · have hinv := processAll_index_inv cfg lines initState
      (by intro cp hcp; exact absurd hcp (by simp [initState]))
      (by intro g2; cases g2 <;> simp [savedOf, initState])
    exact finalizeRun_pairwise _ hinv.1 hinv.2 g

/-- Witness for C6 on a concrete five-record abstract-mode run with a
positive checkpoint interval. -/
theorem checkpoints_cover_witness :
    0 < cfgAbstractEx.checkpoint_interval ∧
    savedRecords ColumnGroup.abstractCol
        (runClean cfgAbstractEx linesFiveEx).finalState =
      fullRunOf ColumnGroup.abstractCol
        (runClean cfgAbstractEx linesFiveEx).finalState :=
  ⟨by decide,
   (checkpoints_cover_final_output cfgAbstractEx linesFiveEx
      ColumnGroup.abstractCol (by decide)).1⟩

/-! ## C3 -/

theorem appendToGroups_abstract_mode (cfg : Config) (st : PipelineState)
    (d : OutputRecord) (hopt : cfg.extract_option = ExtractOption.abstract) :
    appendToGroups cfg st d =
      { st with data_abstract := st.data_abstract ++ [d],
                checkpoint_data_abstract := st.checkpoint_data_abstract ++ [d] } := by
  unfold appendToGroups
  simp [hopt, requestsAbstract, requestsFullText]

theorem midStreamFlush_abstract_case (st : PipelineState)
    (hA : st.checkpoint_data_abstract ≠ []) (hF : st.checkpoint_data_full_text = []) :
    midStreamFlush st =
      { st with checkpoint_num := st.checkpoint_num + 1,
                checkpoint_data_abstract := [],
                saved := st.saved ++
                  [{ num := st.checkpoint_num + 1, column := ColumnGroup.abstractCol,
                     data := st.checkpoint_data_abstract }] } := by
  unfold midStreamFlush flushAbstractBuf flushFullTextBuf
  simp [hA, hF, List.isEmpty_iff]

theorem processEntry_invAbstract2 (cfg : Config) (st : PipelineState) (e : RawRecord)
    (hopt : cfg.extract_option = ExtractOption.abstract)
    (hint : cfg.checkpoint_interval = 2)
    (h : invAbstract2 st) : invAbstract2 (processEntry cfg st e) := by
  obtain ⟨h1, h2, h3, h4, h5⟩ := h
  unfold processEntry
  split
  case isFalse => exact ⟨h1, h2, h3, h4, h5⟩
  case isTrue hacc =>
    unfold processAccepted checkpointIfDue
    rw [appendToGroups_abstract_mode cfg st _ hopt]
    simp only [incrementProcessed, hint, beq_iff_eq]
    by_cases hmod : (st.processed_count + 1) % 2 = 0
    · rw [if_pos (by exact hmod)]
      rw [midStreamFlush_abstract_case _ (by simp) (by exact h3)]
      refine ⟨?_, ?_, ?_, ?_, ?_⟩
      · show st.checkpoint_num + 1 = (st.processed_count + 1) / 2
        omega
      · show (0 : Nat) = (st.processed_count + 1) % 2
        omega
      · exact h3
      · show stateShape _ = _
        unfold stateShape
        simp only [List.map_append, List.map_cons, List.map_nil]
        unfold stateShape at h4
        rw [h4]
        have hd2 : (st.processed_count + 1) / 2 = st.processed_count / 2 + 1 := by
          omega
        have hl2 : (st.checkpoint_data_abstract ++
            [makeEntryData cfg (st.processed_count + 1) e]).length = 2 := by
          simp [h2]
          omega
        rw [hd2, List.range_succ, List.map_append]
        simp [h1, hl2]
      · intro cp hcp
        rcases List.mem_append.mp hcp with hcp | hcp
        · exact h5 cp hcp
        · rw [List.mem_singleton] at hcp
          rw [hcp]
    · rw [if_neg (by exact hmod)]
      refine ⟨?_, ?_, ?_, ?_, ?_⟩
      · show st.checkpoint_num = (st.processed_count + 1) / 2
        omega
      · show (st.checkpoint_data_abstract ++
            [makeEntryData cfg (st.processed_count + 1) e]).length =
          (st.processed_count + 1) % 2
        simp [h2]
        omega
      · exact h3
      · show stateShape _ = _
        unfold stateShape at h4 ⊢
        have hd2 : (st.processed_count + 1) / 2 = st.processed_count / 2 := by
          omega
        rw [hd2]
        exact h4
      · exact h5

theorem processAll_invAbstract2 (cfg : Config) (lines : List RawRecord)
    (hopt : cfg.extract_option = ExtractOption.abstract)
    (hint : cfg.checkpoint_interval = 2) :
    ∀ st : PipelineState, invAbstract2 st → invAbstract2 (processAll cfg st lines) := by
  induction lines with
  | nil => intro st h; exact h
  | cons e rest ih =>
    intro st h
    rw [processAll_cons]
    exact ih _ (processEntry_invAbstract2 cfg st e hopt hint h)

theorem flatMap_eq_savedRecords (st : PipelineState)
    (h : ∀ cp ∈ st.saved, cp.column = ColumnGroup.abstractCol) :
    st.saved.flatMap Checkpoint.data = savedRecords ColumnGroup.abstractCol st := by
  unfold savedRecords savedOf
  rw [List.filter_eq_self.mpr]
  intro cp hcp
  rw [h cp hcp]
  rfl

/-- C3: with checkpoint interval 2 in `abstract` mode (so the Full Text
group receives nothing) and exactly 5 accepted records, exactly three
checkpoint artifacts are written: two two-record artifacts for accepted
records 1-2 and 3-4 and a one-record residual artifact for record 5,
carrying indices 1, 2 and 3; their concatenation is the accepted records
in acceptance order. -/
theorem five_records_interval_two_checkpoints (cfg : Config) (lines : List RawRecord)
    (hopt : cfg.extract_option = ExtractOption.abstract)
    (hint : cfg.checkpoint_interval = 2)
    (hcount : countAccepted cfg lines = 5) :
    stateShape (runClean cfg lines).finalState =
      [(1, ColumnGroup.abstractCol, 2), (2, ColumnGroup.abstractCol, 2),
       (3, ColumnGroup.abstractCol, 1)] ∧
    (runClean cfg lines).finalState.saved.flatMap Checkpoint.data =
      acceptedOutputs cfg 0 lines := by
  have hinv : invAbstract2 (processAll cfg initState lines) := by
    refine processAll_invAbstract2 cfg lines hopt hint initState ?_
    refine ⟨rfl, rfl, rfl, by simp [stateShape, initState], ?_⟩
    intro cp hcp
    exact absurd hcp (by simp [initState])
  have hproc : (processAll cfg initState lines).processed_count = 5 := by
    rw [processAll_processed]
    simpa [initState] using hcount
  obtain ⟨h1, h2, h3, h4, h5⟩ := hinv
  rw [hproc] at h1 h2 h4
  norm_num at h1 h2 h4
  have hbufA : ¬ (processAll cfg initState lines).checkpoint_data_abstract.isEmpty
      = true := by
    rw [List.isEmpty_iff]
    intro hc
    rw [hc] at h2
    simp at h2
  have hsaved : (runClean cfg lines).finalState.saved =
      (processAll cfg initState lines).saved ++
        [{ num := 3, column := ColumnGroup.abstractCol,
           data := (processAll cfg initState lines).checkpoint_data_abstract }] := by
    show (finalizeRun (processAll cfg initState lines)).finalState.saved = _
    rw [finalizeRun_saved_eq]
    simp [hbufA, h3, h1]
  constructor
  · show stateShape (runClean cfg lines).finalState = _
    unfold stateShape
    rw [hsaved, List.map_append]
    unfold stateShape at h4
    rw [h4]
    simp [h2, List.range_succ]
  · rw [hsaved, List.flatMap_append]
    have hcols : ∀ cp ∈ (processAll cfg initState lines).saved,
        cp.column = ColumnGroup.abstractCol := h5
    rw [flatMap_eq_savedRecords _ hcols]
    have hcover := processAll_cover cfg ColumnGroup.abstractCol lines initState
    have hreq : groupRequested cfg ColumnGroup.abstractCol = true := by
      simp [groupRequested, hopt, requestsAbstract]
    simp only [hreq, if_true] at hcover
    have hinit : savedRecords ColumnGroup.abstractCol initState ++
        bufferOf ColumnGroup.abstractCol initState = [] := rfl
    rw [hinit, List.nil_append] at hcover
    have hbuf : (processAll cfg initState lines).checkpoint_data_abstract =
        bufferOf ColumnGroup.abstractCol (processAll cfg initState lines) := rfl
    rw [List.flatMap_singleton]
    show savedRecords ColumnGroup.abstractCol (processAll cfg initState lines) ++
        (processAll cfg initState lines).checkpoint_data_abstract = _
    rw [hbuf, hcover]
    rfl

/-- Witness for C3 on the concrete six-line stream with five accepted
records. -/
theorem five_records_interval_two_witness :
    countAccepted cfgAbstractEx linesFiveEx = 5 ∧
    stateShape (runClean cfgAbstractEx linesFiveEx).finalState =
      [(1, ColumnGroup.abstractCol, 2), (2, ColumnGroup.abstractCol, 2),
       (3, ColumnGroup.abstractCol, 1)] :=
  ⟨by decide,
   (five_records_interval_two_checkpoints cfgAbstractEx linesFiveEx rfl rfl
      (by decide)).1⟩

/-! ## C4 machinery: the tag computation is injective in the sequence
number, shown by inverting each stage (base64, UTF-8, decimal). -/

theorem b64Value_b64Char : ∀ n : Nat, n < 64 → b64Value (b64Char n) = n := by decide

theorem b64Char_ne_pad : ∀ n : Nat, n < 64 → ((b64Char n == '=') = false) := by decide

theorem base64_decode_encode : ∀ (l : List Nat), (∀ b ∈ l, b < 256) →
    base64Decode (base64Encode l) = l
  | [], _ => rfl
  | [a], h => by
    have ha : a < 256 := h a (by simp)
    have h1 : a / 4 < 64 := by omega
    have h2 : a % 4 * 16 < 64 := by omega
    show base64Decode [b64Char (a / 4), b64Char (a % 4 * 16), '=', '='] = [a]
    simp only [base64Decode]
    rw [if_pos (show ('=' == '=') = true from rfl)]
    rw [b64Value_b64Char _ h1, b64Value_b64Char _ h2]
    have hv : a / 4 * 4 + a % 4 * 16 / 16 = a := by omega
    rw [hv]
  | [a, b], h => by
    have ha : a < 256 := h a (by simp)
    have hb : b < 256 := h b (by simp)
    have h1 : a / 4 < 64 := by omega
    have h2 : a % 4 * 16 + b / 16 < 64 := by omega
    have h3 : b % 16 * 4 < 64 := by omega
    show base64Decode
      [b64Char (a / 4), b64Char (a % 4 * 16 + b / 16), b64Char (b % 16 * 4), '='] =
        [a, b]
    simp only [base64Decode]
    rw [if_neg (by simp [b64Char_ne_pad _ h3])]
    rw [if_pos (show ('=' == '=') = true from rfl)]
    rw [b64Value_b64Char _ h1, b64Value_b64Char _ h2, b64Value_b64Char _ h3]
    have hv1 : a / 4 * 4 + (a % 4 * 16 + b / 16) / 16 = a := by omega
    have hv2 : (a % 4 * 16 + b / 16) % 16 * 16 + b % 16 * 4 / 4 = b := by omega
    rw [hv1, hv2]
  | a :: b :: c :: rest, h => by
    have ha : a < 256 := h a (by simp)
    have hb : b < 256 := h b (by simp)
    have hc : c < 256 := h c (by simp)
    have h1 : a / 4 < 64 := by omega
    have h2 : a % 4 * 16 + b / 16 < 64 := by omega
    have h3 : b % 16 * 4 + c / 64 < 64 := by omega
    have h4 : c % 64 < 64 := by omega
    show base64Decode
      (b64Char (a / 4) :: b64Char (a % 4 * 16 + b / 16) ::
        b64Char (b % 16 * 4 + c / 64) :: b64Char (c % 64) ::
        base64Encode rest) = a :: b :: c :: rest
    simp only [base64Decode]
    rw [if_neg (by simp [b64Char_ne_pad _ h3])]
    rw [if_neg (by simp [b64Char_ne_pad _ h4])]
    rw [b64Value_b64Char _ h1, b64Value_b64Char _ h2, b64Value_b64Char _ h3,
      b64Value_b64Char _ h4]
    rw [base64_decode_encode rest (fun x hx => h x (by simp [hx]))]
    have hv1 : a / 4 * 4 + (a % 4 * 16 + b / 16) / 16 = a := by omega
    have hv2 : (a % 4 * 16 + b / 16) % 16 * 16 + (b % 16 * 4 + c / 64) / 4 = b := by
      omega
    have hv3 : (b % 16 * 4 + c / 64) % 4 * 64 + c % 64 = c := by omega
    rw [hv1, hv2, hv3]

theorem char_toNat_lt (c : Char) : c.toNat < 1114112 := by
  have h := c.valid
  rcases h with h | h
  · exact Nat.lt_trans h (by norm_num)
  · exact h.2

theorem utf8Bytes_lt (c : Char) : ∀ b ∈ utf8Bytes c, b < 256 := by
  have hlt := char_toNat_lt c
  intro b hb
  unfold utf8Bytes at hb
  by_cases h1 : c.toNat < 0x80
  · rw [if_pos h1] at hb
    rw [List.mem_singleton] at hb
    omega
  · by_cases h2 : c.toNat < 0x800
    · rw [if_neg h1, if_pos h2] at hb
      simp only [List.mem_cons, List.not_mem_nil, or_false] at hb
      rcases hb with rfl | rfl <;> omega
    · by_cases h3 : c.toNat < 0x10000
      · rw [if_neg h1, if_neg h2, if_pos h3] at hb
        simp only [List.mem_cons, List.not_mem_nil, or_false] at hb
        rcases hb with rfl | rfl | rfl <;> omega
      · rw [if_neg h1, if_neg h2, if_neg h3] at hb
        simp only [List.mem_cons, List.not_mem_nil, or_false] at hb
        rcases hb with rfl | rfl | rfl | rfl <;> omega

theorem utf8Bytes_ne_nil (c : Char) : utf8Bytes c ≠ [] := by
  unfold utf8Bytes
  split_ifs <;> simp

theorem utf8Bytes_head_inj (c1 c2 : Char) (r1 r2 : List Nat)
    (h : utf8Bytes c1 ++ r1 = utf8Bytes c2 ++ r2) : c1.toNat = c2.toNat ∧ r1 = r2 := by
  have hl1 := char_toNat_lt c1
  have hl2 := char_toNat_lt c2
  unfold utf8Bytes at h
  split_ifs at h <;>
    simp only [List.cons_append, List.nil_append, List.cons.injEq] at h <;>
    (obtain ⟨h1, h⟩ := h
     first
     | (obtain ⟨h2, h⟩ := h
        first
        | (obtain ⟨h3, h⟩ := h
           first
           | (obtain ⟨h4, h⟩ := h
              exact ⟨by omega, h⟩)
           | exact ⟨by omega, h⟩
           | (exfalso; omega))
        | exact ⟨by omega, h⟩
        | (exfalso; omega))
     | exact ⟨by omega, h⟩)

theorem char_toNat_inj (c1 c2 : Char) (h : c1.toNat = c2.toNat) : c1 = c2 := by
  exact Char.eq_of_val_eq (UInt32.ext h)

theorem flatMap_utf8_inj : ∀ (l1 l2 : List Char),
    l1.flatMap utf8Bytes = l2.flatMap utf8Bytes → l1 = l2
  | [], [], _ => rfl
  | [], c :: l2, h => by
    exfalso
    rw [List.flatMap_nil, List.flatMap_cons] at h
    have := List.append_eq_nil.mp h.symm
    exact utf8Bytes_ne_nil c this.1
  | c :: l1, [], h => by
    exfalso
    rw [List.flatMap_nil, List.flatMap_cons] at h
    have := List.append_eq_nil.mp h
    exact utf8Bytes_ne_nil c this.1
  | c1 :: l1, c2 :: l2, h => by
    rw [List.flatMap_cons, List.flatMap_cons] at h
    obtain ⟨hc, hr⟩ := utf8Bytes_head_inj c1 c2 _ _ h
    rw [char_toNat_inj c1 c2 hc, flatMap_utf8_inj l1 l2 hr]

theorem strUtf8_inj (s1 s2 : String) (h : strUtf8 s1 = strUtf8 s2) : s1 = s2 := by
  cases s1
  cases s2
  unfold strUtf8 at h
  simp only at h
  rw [flatMap_utf8_inj _ _ h]

theorem digit_char_toNat : ∀ d : Nat, d < 10 → (Char.ofNat (48 + d)).toNat = 48 + d := by
  decide

theorem parseDec_append (l : List Char) (c : Char) :
    parseDec (l ++ [c]) = parseDec l * 10 + (c.toNat - 48) := by
  unfold parseDec
  rw [List.foldl_append]
  rfl

theorem parseDec_natDigitsAux : ∀ (fuel n : Nat), n ≤ fuel →
    parseDec (natDigitsAux fuel n) = n
  | 0, n, h => by
    have hn : n = 0 := by omega
    subst hn
    show parseDec ([] ++ [Char.ofNat (48 + 0 % 10)]) = 0
    rw [parseDec_append, digit_char_toNat (0 % 10) (by omega)]
    show 0 * 10 + (48 + 0 % 10 - 48) = 0
    omega
  | fuel + 1, n, h => by
    show parseDec (if n < 10 then [Char.ofNat (48 + n)]
      else natDigitsAux fuel (n / 10) ++ [Char.ofNat (48 + n % 10)]) = n
    by_cases h10 : n < 10
    · rw [if_pos h10]
      show parseDec ([] ++ [Char.ofNat (48 + n)]) = n
      rw [parseDec_append, digit_char_toNat n h10]
      show 0 * 10 + (48 + n - 48) = n
      omega
    · rw [if_neg h10, parseDec_append, digit_char_toNat (n % 10) (by omega),
        parseDec_natDigitsAux fuel (n / 10) (by omega)]
      omega

theorem parseDec_natDigits (n : Nat) : parseDec (natDigits n) = n :=
  parseDec_natDigitsAux n n (Nat.le_refl n)

theorem string_data_inj (s1 s2 : String) (h : s1.data = s2.data) : s1 = s2 := by
  cases s1
  cases s2
  simp only at h
  rw [h]

theorem natToDecimal_inj (m n : Nat) (h : natToDecimal m = natToDecimal n) : m = n := by
  have hd : natDigits m = natDigits n := congrArg String.data h
  calc m = parseDec (natDigits m) := (parseDec_natDigits m).symm
    _ = parseDec (natDigits n) := by rw [hd]
    _ = n := parseDec_natDigits n

theorem strUtf8_bytes_lt (s : String) : ∀ b ∈ strUtf8 s, b < 256 := by
  intro b hb
  unfold strUtf8 at hb
  rw [List.mem_flatMap] at hb
  obtain ⟨c, _, hbc⟩ := hb
  exact utf8Bytes_lt c b hbc

theorem versionTag_inj (base : String) (m n : Nat)
    (h : versionTag base m = versionTag base n) : m = n := by
  have h1 : base64Encode (strUtf8 (base ++ natToDecimal m)) =
      base64Encode (strUtf8 (base ++ natToDecimal n)) := congrArg String.data h
  have h2 : strUtf8 (base ++ natToDecimal m) = strUtf8 (base ++ natToDecimal n) := by
    have hm := base64_decode_encode (strUtf8 (base ++ natToDecimal m))
      (strUtf8_bytes_lt _)
    have hn := base64_decode_encode (strUtf8 (base ++ natToDecimal n))
      (strUtf8_bytes_lt _)
    rw [← hm, ← hn, h1]
  have h3 : base ++ natToDecimal m = base ++ natToDecimal n := strUtf8_inj _ _ h2
  have h4 : base.data ++ (natToDecimal m).data = base.data ++ (natToDecimal n).data := by
    rw [← String.data_append, ← String.data_append, h3]
  exact natToDecimal_inj m n (string_data_inj _ _ (List.append_cancel_left h4))

theorem acceptedOutputs_tags (cfg : Config) (lines : List RawRecord) :
    ∀ seq : Nat,
      (acceptedOutputs cfg seq lines).map OutputRecord.version_control =
        (List.range (countAccepted cfg lines)).map
          (fun i => versionTag cfg.base_value (seq + 1 + i)) := by
  induction lines with
  | nil =>
    intro seq
    simp [acceptedOutputs, countAccepted]
  | cons e rest ih =>
    intro seq
    by_cases h : accepts cfg e = true
    · have hstep : acceptedOutputs cfg seq (e :: rest) =
          makeEntryData cfg (seq + 1) e :: acceptedOutputs cfg (seq + 1) rest := by
        simp [acceptedOutputs, h]
      have hc : countAccepted cfg (e :: rest) = countAccepted cfg rest + 1 := by
        simp [countAccepted, List.filter_cons, h]
      rw [hstep, hc, List.map_cons, ih (seq + 1), List.range_succ_eq_map,
        List.map_cons, List.map_map]
      have hhead : (makeEntryData cfg (seq + 1) e).version_control =
          versionTag cfg.base_value (seq + 1 + 0) := rfl
      rw [hhead]
      have htail : ∀ i ∈ List.range (countAccepted cfg rest),
          versionTag cfg.base_value (seq + 1 + 1 + i) =
            ((fun i => versionTag cfg.base_value (seq + 1 + i)) ∘ Nat.succ) i := by
        intro i _
        show versionTag cfg.base_value (seq + 1 + 1 + i) =
          versionTag cfg.base_value (seq + 1 + (i + 1))
        have hadd : seq + 1 + 1 + i = seq + 1 + (i + 1) := by omega
        rw [hadd]
      rw [List.map_congr_left htail]
    · have hstep : acceptedOutputs cfg seq (e :: rest) =
          acceptedOutputs cfg seq rest := by
        simp [acceptedOutputs, h]
      have hc : countAccepted cfg (e :: rest) = countAccepted cfg rest := by
        simp [countAccepted, List.filter_cons, h]
      rw [hstep, hc, ih seq]

/-! ## C4 -/

/-- C4: in every requested column-group the accepted records' Version
Control tags are, in order, `base64(utf8(base_value ++ decimal(k)))` for
`k = 1, 2, ...` — the sequence counter starts at 1 and advances once per
accepted raw record, shared across the groups; for a fixed base value the
tag map is injective in the sequence number, so the tags of a run are
pairwise distinct and strictly ordered by acceptance sequence; base value
`"123"` yields `base64("1231") = "MTIzMQ=="` for the first accepted
record and `base64("1232") = "MTIzMg=="` for the second. -/
theorem version_tags_sequence_and_distinct (cfg : Config) (lines : List RawRecord)
    (g : ColumnGroup) (hreq : groupRequested cfg g = true) :
    (fullRunOf g (runClean cfg lines).finalState).map OutputRecord.version_control =
      (List.range (countAccepted cfg lines)).map
        (fun i => versionTag cfg.base_value (i + 1)) ∧
    (∀ m n : Nat, m ≠ n →
      versionTag cfg.base_value m ≠ versionTag cfg.base_value n) ∧
    ((List.range (countAccepted cfg lines)).map
        (fun i => versionTag cfg.base_value (i + 1))).Pairwise (· ≠ ·) ∧
    versionTag "123" 1 = "MTIzMQ==" ∧ versionTag "123" 2 = "MTIzMg==" := by
  have hfull : fullRunOf g (runClean cfg lines).finalState =
      acceptedOutputs cfg 0 lines := by
    show fullRunOf g (finalizeRun (processAll cfg initState lines)).finalState = _
    rw [finalizeRun_fullRun, processAll_fullRun]
    have h1 : fullRunOf g initState = [] := by cases g <;> rfl
    simp only [h1, hreq, if_true, List.nil_append]
    rfl
  refine ⟨?_, ?_, ?_, by decide, by decide⟩
  · rw [hfull, acceptedOutputs_tags cfg lines 0]
    refine List.map_congr_left ?_
    intro i _
    have h2 : 0 + 1 + i = i + 1 := by omega
    rw [h2]
  · intro m n hmn heq
    exact hmn (versionTag_inj cfg.base_value m n heq)
  · refine List.Pairwise.map _ ?_ (List.pairwise_lt_range _)
    intro a b hab heq
    have := versionTag_inj cfg.base_value (a + 1) (b + 1) heq
    omega

/-- Witness for C4 on a concrete two-record `both`-mode run. -/
theorem version_tags_witness :
    groupRequested cfgBothEx ColumnGroup.abstractCol = true ∧
    (fullRunOf ColumnGroup.abstractCol
        (runClean cfgBothEx [recFullTextOnly, recBothTexts]).finalState).map
      OutputRecord.version_control =
      (List.range (countAccepted cfgBothEx [recFullTextOnly, recBothTexts])).map
        (fun i => versionTag cfgBothEx.base_value (i + 1)) ∧
    versionTag cfgBothEx.base_value 1 ≠ versionTag cfgBothEx.base_value 2 := by
  refine ⟨by decide, (version_tags_sequence_and_distinct cfgBothEx
    [recFullTextOnly, recBothTexts] ColumnGroup.abstractCol (by decide)).1,
    (version_tags_sequence_and_distinct cfgBothEx
      [recFullTextOnly, recBothTexts] ColumnGroup.abstractCol (by decide)).2.1 1 2
      (by decide)⟩

end WikiExtractor
